import Mathlib

/-!
Verification development for the `@tnnquang/eslint` plugin (three ESLint
rules: `no-namespace-import`, `no-arrow-components`, `enforce-path-alias`).
Each rule's `create` visitor from `src/lib/index.js` is shallowly embedded:
AST nodes become inductive types, the per-file mutable aggregation state
becomes explicit state passing, diagnostics become a list of records, and
JavaScript `Map`/`Set` objects become insertion-ordered association lists
(matching their iteration-order semantics).  Diagnostic anchors are the
index of the originating node in the file's traversal-event list.
-/

namespace NoNamespaceImport

/-- ESTree import specifiers, restricted to the three kinds the rule
inspects via `s.type` checks. -/
inductive Specifier where
  | importDefaultSpecifier (localName : String)
  | importSpecifier (importedName : String)
  | importNamespaceSpecifier (localName : String)
deriving DecidableEq

/-- `s.type === "ImportDefaultSpecifier"` (the predicate passed to
`node.specifiers.find` in the `ImportDeclaration` visitor). -/
def Specifier.isDefault : Specifier → Bool
  | .importDefaultSpecifier _ => true
  | _ => false

/-- An `ImportDeclaration` node: `node.source.value`, `node.importKind`
(`"value"` or `"type"`), and `node.specifiers`. -/
structure ImportDeclNode where
  source : String
  importKind : String
  specifiers : List Specifier
deriving DecidableEq

/-- The shape of `node.object` / `node.property` of a `MemberExpression`:
either an `Identifier` carrying a name, or anything else (the rule only
acts when both are identifiers). -/
inductive Expr where
  | ident (name : String)
  | other
deriving DecidableEq

/-- A `MemberExpression` node as far as the rule reads it. -/
structure MemberExprNode where
  object : Expr
  property : Expr
deriving DecidableEq

/-- One traversal event delivered by the host engine: the rule registers
`ImportDeclaration` and `MemberExpression` callbacks. -/
inductive Event where
  | importDecl (d : ImportDeclNode)
  | memberExpr (m : MemberExprNode)
deriving DecidableEq

/-- The rule's options after schema/default resolution:
`allowedLibraries` (default `[]`), `targetLibraries` (default `[]`),
`checkTypeScriptTypes` (`options.checkTypeScriptTypes !== false`),
`allowTypeNamespaces` (`options.allowTypeNamespaces || false`). -/
structure NsOptions where
  allowedLibraries : List String
  targetLibraries : List String
  checkTypeScriptTypes : Bool
  allowTypeNamespaces : Bool
deriving DecidableEq

/-- The entry pushed onto `defaultImports.get(libraryName)` in the
`ImportDeclaration` visitor.  `nodeIdx` is the position of the import
declaration in the event list (standing for the `node` reference used to
anchor the summary diagnostic); `node` is the declaration itself (read
back by the summary fix for its existing named specifiers). -/
structure ImportInfo where
  nodeIdx : Nat
  node : ImportDeclNode
  localName : String
  libraryName : String
  isUsedAsNamespace : Bool
  namespacedProperties : List String
  isTypeImport : Bool
deriving DecidableEq

/-- `defaultImports : Map<string, ImportInfo[]>` — a JavaScript `Map`
iterates in key-insertion order, so it is embedded as an association
list. -/
abbrev NsState := List (String × List ImportInfo)

/-- `Set.add` on an insertion-ordered string set (`namespacedProperties`
and the named-import sets are JS `Set`s). -/
def addToSet (l : List String) (x : String) : List String :=
  if l.contains x then l else l ++ [x]

/-- `new Set(list)` — deduplicate keeping first occurrences, in order. -/
def jsSetOfList (l : List String) : List String :=
  l.foldl addToSet []

/-- A fix attached to a diagnostic: `fixer.replaceText(node, text)` or
`fixer.remove(node)`, with the node given by its event index. -/
inductive FixAction where
  | replaceText (anchor : Nat) (text : String)
  | removeNode (anchor : Nat)
deriving DecidableEq

/-- A reported diagnostic: anchor node index, `messageId`, the `data`
interpolation map, and the optional fix. -/
structure Diagnostic where
  anchor : Nat
  messageId : String
  data : List (String × String)
  fix : Option FixAction
deriving DecidableEq

/-- `shouldCheckLibrary`: allow-listed libraries are never checked; else
check all when `targetLibraries` is empty, otherwise only listed ones. -/
def shouldCheckLibrary (o : NsOptions) (libraryName : String) : Bool :=
  if o.allowedLibraries.contains libraryName then
    false
  else
    o.targetLibraries.isEmpty || o.targetLibraries.contains libraryName

/-- Insert a fresh record: `if (!defaultImports.has(lib)) set(lib, []);
defaultImports.get(lib).push(info)`. -/
def recordImport (st : NsState) (lib : String) (info : ImportInfo) : NsState :=
  let st1 : NsState := if st.any (fun e => e.1 == lib) then st else st ++ [(lib, [])]
  st1.map (fun e => if e.1 == lib then (e.1, e.2 ++ [info]) else e)

/-- The `ImportDeclaration` visitor.  A type-only import is one with
`node.importKind === "type"` in a TypeScript file while
`checkTypeScriptTypes` holds; such an import is skipped entirely when
`allowTypeNamespaces` is set. -/
def processImport (o : NsOptions) (isTypeScript : Bool) (idx : Nat)
    (node : ImportDeclNode) (st : NsState) : NsState :=
  if shouldCheckLibrary o node.source then
    match node.specifiers.find? Specifier.isDefault with
    | some (.importDefaultSpecifier localName) =>
      let isTypeOnlyImport :=
        isTypeScript && o.checkTypeScriptTypes && (node.importKind == "type")
      if isTypeOnlyImport && o.allowTypeNamespaces then
        st
      else
        recordImport st node.source
          { nodeIdx := idx
            node := node
            localName := localName
            libraryName := node.source
            isUsedAsNamespace := false
            namespacedProperties := []
            isTypeImport := isTypeOnlyImport }
    | _ => st
  else
    st

/-- Update the first record whose `localName` matches: set
`isUsedAsNamespace` and add the accessed property to the evidence set
(these two mutations always happen together). -/
def markFirst (objectName propertyName : String) :
    List ImportInfo → List ImportInfo
  | [] => []
  | imp :: rest =>
    if imp.localName == objectName then
      { imp with
        isUsedAsNamespace := true
        namespacedProperties := addToSet imp.namespacedProperties propertyName } :: rest
    else
      imp :: markFirst objectName propertyName rest

/-- Scan the map entries in insertion order for the first entry whose
list contains a record with the accessed object's name (the
`for … of defaultImports.entries()` loop with `imports.find` and
`break`).  Returns the updated state, the owning library name (the loop
key) and the matched record's `isTypeImport`. -/
def memberLookup (objectName propertyName : String) :
    NsState → Option (NsState × String × Bool)
  | [] => none
  | (lib, imps) :: rest =>
    match imps.find? (fun imp => imp.localName == objectName) with
    | some imp =>
      some ((lib, markFirst objectName propertyName imps) :: rest, lib, imp.isTypeImport)
    | none =>
      match memberLookup objectName propertyName rest with
      | some (st', lib', t) => some ((lib, imps) :: st', lib', t)
      | none => none

/-- The `MemberExpression` visitor: on a qualifying identifier access it
immediately reports an inline diagnostic whose fix replaces the whole
member expression with the bare property name. -/
def processMember (idx : Nat) (node : MemberExprNode) (st : NsState) :
    NsState × List Diagnostic :=
  match node.object, node.property with
  | .ident objectName, .ident propertyName =>
    match memberLookup objectName propertyName st with
    | some (st', libraryName, isType) =>
      (st',
        [ { anchor := idx
            messageId := if isType then ("noTypeNamespaceUsage") else ("noNamespaceUsage")
            data :=
              [ (("objectName"), objectName)
              , (("propertyName"), propertyName)
              , (("libraryName"), libraryName) ]
            fix := some (.replaceText idx propertyName) } ])
    | none => (st, [])
  | _, _ => (st, [])

/-- Drive the two visitors over the file's traversal events, threading
the aggregation state and collecting the inline diagnostics in report
order. -/
def processEvents (o : NsOptions) (isTypeScript : Bool) :
    Nat → NsState → List Event → NsState × List Diagnostic
  | _, st, [] => (st, [])
  | idx, st, .importDecl d :: rest =>
    processEvents o isTypeScript (idx + 1) (processImport o isTypeScript idx d st) rest
  | idx, st, .memberExpr m :: rest =>
    let r := processMember idx m st
    let tail := processEvents o isTypeScript (idx + 1) r.1 rest
    (tail.1, r.2 ++ tail.2)

/-- `propertiesArray.slice(0, 3).join(", ") + (length > 3 ? ", ..." : "")`. -/
def propertiesStringOf (props : List String) : String :=
  String.intercalate (", ") (props.take 3) ++ (if 3 < props.length then (", ...") else (""))

/-- Insertion sort by the string order (the JS default `Array.sort`,
code-unit lexicographic; the sorted names are pairwise distinct here so
tie order is irrelevant). -/
def insertSorted (x : String) : List String → List String
  | [] => [x]
  | y :: ys => if y < x then y :: insertSorted x ys else x :: y :: ys

/-- `Array.from(set).sort()`. -/
def sortStrings (l : List String) : List String :=
  l.foldr insertSorted []

/-- The rewritten import statement produced by the summary fix:
`` `${importPrefix} { ${names} } from '${lib}';` ``. -/
def renderNamedImport (isType : Bool) (names : List String) (lib : String) : String :=
  (if isType then ("import type") else ("import")) ++ (" \x7b ") ++
    String.intercalate (", ") names ++ (" \x7d from '") ++ lib ++ ("';")

/-- The summary diagnostic's fix: combine the declaration's existing
named-import names with every observed namespaced property; delete
the import if the union is empty, otherwise replace it with the
lexicographically sorted named-import form. -/
def summaryFix (imp : ImportInfo) (libraryName : String) : FixAction :=
  let existingNamedImportNames :=
    jsSetOfList (imp.node.specifiers.filterMap (fun s =>
      match s with
      | .importSpecifier n => some n
      | _ => none))
  let allNeededNamedImports :=
    jsSetOfList (existingNamedImportNames ++ imp.namespacedProperties)
  if allNeededNamedImports.isEmpty then
    .removeNode imp.nodeIdx
  else
    .replaceText imp.nodeIdx
      (renderNamedImport imp.isTypeImport (sortStrings allNeededNamedImports) libraryName)

/-- The deferred summary diagnostic for one namespace-used record. -/
def summaryDiag (libraryName : String) (imp : ImportInfo) : Diagnostic :=
  { anchor := imp.nodeIdx
    messageId :=
      if imp.isTypeImport then ("noDefaultTypeImportForNamespace")
      else ("noDefaultImportForNamespace")
    data :=
      [ (("importName"), imp.localName)
      , (("libraryName"), libraryName)
      , (("properties"), propertiesStringOf imp.namespacedProperties) ]
    fix := some (summaryFix imp libraryName) }

/-- The `Program:exit` callback: one summary per record marked
namespace-used, in map/insertion order. -/
def programExit : NsState → List Diagnostic
  | [] => []
  | (lib, imps) :: rest =>
    (imps.filter (fun imp => imp.isUsedAsNamespace)).map (summaryDiag lib) ++
      programExit rest

/-- The final aggregation state after traversing a file. -/
def nsFinalState (o : NsOptions) (isTypeScript : Bool) (events : List Event) : NsState :=
  (processEvents o isTypeScript 0 [] events).1

/-- The whole rule on one file: inline diagnostics in traversal order
followed by the end-of-traversal summaries. -/
def runNsRule (o : NsOptions) (isTypeScript : Bool) (events : List Event) :
    List Diagnostic :=
  let r := processEvents o isTypeScript 0 [] events
  r.2 ++ programExit r.1

/-- The per-binding validity property the summary phase relies on: a
record is marked namespace-used only together with a recorded property,
so its evidence set is non-empty. -/
def NsInv (st : NsState) : Prop :=
  ∀ e ∈ st, ∀ imp ∈ e.2,
    imp.isUsedAsNamespace = true → imp.namespacedProperties ≠ []

/-- The abstract-syntax reading of the summary fix's replacement text
`import [type] { n1, n2, … } from 'lib';` — a declaration whose
specifiers are exactly the named imports, with no default-style
specifier. -/
def fixedImportAst (isType : Bool) (names : List String) (lib : String) :
    ImportDeclNode :=
  { source := lib
    importKind := if isType then ("type") else ("value")
    specifiers := names.map .importSpecifier }

end NoNamespaceImport

namespace NoArrowComponents

/-- A statement of an arrow function's block body, as far as the rule
reads it: a `ReturnStatement` carrying its argument's node type (or no
argument), or anything else. -/
inductive Stmt where
  | returnStmt (argumentType : Option String)
  | otherStmt
deriving DecidableEq

/-- `node.init.body` of an arrow initializer: a `JSXElement`, a
`BlockStatement` with its top-level statements, or any other expression
body. -/
inductive ArrowBody where
  | jsxElement
  | blockStatement (stmts : List Stmt)
  | otherExpr
deriving DecidableEq

/-- A declarator's initializer expression: the rule distinguishes arrow
function expressions (with their body), anonymous function expressions,
call expressions (with the node types of their arguments, for the HOC
check) and everything else. -/
inductive InitExpr where
  | arrowFunctionExpression (body : ArrowBody)
  | functionExpression
  | callExpression (argumentTypes : List String)
  | otherInit
deriving DecidableEq

/-- `init.type === "ArrowFunctionExpression" || init.type === "FunctionExpression"`. -/
def InitExpr.isFunctionValued : InitExpr → Bool
  | .arrowFunctionExpression _ => true
  | .functionExpression => true
  | _ => false

/-- One element of `node.declarations`: its node type (always
`VariableDeclarator` in ESTree, checked defensively by the rule),
whether `decl.id` is an `Identifier`, the bound name, and the optional
initializer. -/
structure Declarator where
  declType : String
  idIsIdentifier : Bool
  name : String
  init : Option InitExpr
deriving DecidableEq

/-- A top-level `VariableDeclaration` node: its `parent.type` and its
declarator list. -/
structure VarDeclNode where
  parentType : String
  declarations : List Declarator
deriving DecidableEq

/-- A diagnostic of this rule: which declarator it is anchored at (by
name) and the reported `messageId` (the rule offers no fix). -/
structure ArrowDiag where
  declName : String
  messageId : String
deriving DecidableEq

/-- `/^[A-Z][a-zA-Z0-9]*$/` on the binding name (ASCII classes). -/
def isPascalCase (name : String) : Bool :=
  match name.data with
  | [] => false
  | c :: rest =>
    (('A' ≤ c && c ≤ 'Z') &&
      rest.all (fun d =>
        ('A' ≤ d && d ≤ 'Z') || ('a' ≤ d && d ≤ 'z') || ('0' ≤ d && d ≤ '9')))

/-- `stmt.type === "ReturnStatement" && stmt.argument && stmt.argument.type === "JSXElement"`. -/
def Stmt.isJSXReturn : Stmt → Bool
  | .returnStmt (some t) => t == "JSXElement"
  | _ => false

/-- `isReactComponent(node, name)`: PascalCase is required; in a
TypeScript file with `checkTypeScript` on, an arrow initializer's JSX
expression body yields `true` and a block body yields the result of the
JSX-return scan; every other shape falls through to the naming
heuristic. -/
def isReactComponent (isTypeScript checkTypeScript : Bool)
    (decl : Declarator) (name : String) : Bool :=
  if !isPascalCase name then
    false
  else if isTypeScript && checkTypeScript then
    match decl.init with
    | some (.arrowFunctionExpression body) =>
      match body with
      | .jsxElement => true
      | .blockStatement stmts => stmts.any Stmt.isJSXReturn
      | .otherExpr => isPascalCase name
    | _ => isPascalCase name
  else
    isPascalCase name

/-- The `for (const decl of node.declarations)` loop.  A declarator with
the wrong shape is skipped (`continue`); the HOC exemption and the
component report both `return`, ending the whole loop; the
generic-function report falls through to the next declarator. -/
def processDeclarators (isTypeScript checkTypeScript allowArrowFunctions : Bool) :
    List Declarator → List ArrowDiag
  | [] => []
  | decl :: rest =>
    if decl.declType != ("VariableDeclarator") || !decl.idIsIdentifier || decl.init.isNone then
      processDeclarators isTypeScript checkTypeScript allowArrowFunctions rest
    else
      match decl.init with
      | none => processDeclarators isTypeScript checkTypeScript allowArrowFunctions rest
      | some init =>
        let name := decl.name
        let isComponent := isReactComponent isTypeScript checkTypeScript decl name
        let isHocWrapped :=
          match init with
          | .callExpression args =>
            decide (0 < args.length) &&
              (args.head? == some ("ArrowFunctionExpression") ||
                args.head? == some ("FunctionExpression"))
          | _ => false
        if isComponent && isHocWrapped then
          []
        else if isComponent && init.isFunctionValued then
          [ { declName := name
              messageId :=
                if isTypeScript && checkTypeScript then ("tsArrowComponent")
                else ("arrowComponent") } ]
        else if !isComponent && !allowArrowFunctions && init.isFunctionValued then
          { declName := name
            messageId :=
              if isTypeScript && checkTypeScript then ("tsArrowFunction")
              else ("arrowFunction") } ::
            processDeclarators isTypeScript checkTypeScript allowArrowFunctions rest
        else
          processDeclarators isTypeScript checkTypeScript allowArrowFunctions rest

/-- The `VariableDeclaration` visitor: only declarations whose parent is
the `Program` or an `ExportNamedDeclaration` are considered. -/
def runVariableDeclaration (isTypeScript checkTypeScript allowArrowFunctions : Bool)
    (node : VarDeclNode) : List ArrowDiag :=
  if node.parentType != ("Program") && node.parentType != ("ExportNamedDeclaration") then
    []
  else
    processDeclarators isTypeScript checkTypeScript allowArrowFunctions node.declarations

end NoArrowComponents

namespace JsString

/-!
The JavaScript string operations the alias rule uses, embedded over
character lists so that concrete runs reduce inside the kernel (the
core `String` versions are byte-position based and do not).
-/

/-- When `pat` is a leading part of `s`, return the remainder of `s`. -/
def chopLead : List Char → List Char → Option (List Char)
  | [], s => some s
  | _ :: _, [] => none
  | p :: ps, c :: cs => if p == c then chopLead ps cs else none

/-- JavaScript `s.startsWith(p)`. -/
def jsStartsWith (s p : String) : Bool :=
  (chopLead p.data s.data).isSome

/-- JavaScript `s.endsWith(p)`. -/
def jsEndsWith (s p : String) : Bool :=
  (chopLead p.data.reverse s.data.reverse).isSome

/-- Split the text before and after the first occurrence of `pat`
(JavaScript `indexOf` semantics, the empty pattern matching at 0). -/
def findSub (pat : List Char) : List Char → Option (List Char × List Char)
  | [] =>
    match pat with
    | [] => some ([], [])
    | _ :: _ => none
  | c :: cs =>
    match chopLead pat (c :: cs) with
    | some rest => some ([], rest)
    | none =>
      match findSub pat cs with
      | some r => some (c :: r.1, r.2)
      | none => none

/-- JavaScript `s.replace(pat, rep)` with a string pattern: only the
first occurrence is replaced. -/
def replaceFirst (s pat rep : String) : String :=
  match findSub pat.data s.data with
  | some r => String.mk r.1 ++ rep ++ String.mk r.2
  | none => s

/-- JavaScript `s.split(sep)` for a one-character separator (the only
separators this rule splits on: `path.sep`). -/
def splitCharList (sep : Char) : List Char → List (List Char)
  | [] => [[]]
  | c :: cs =>
    if c == sep then [] :: splitCharList sep cs
    else
      match splitCharList sep cs with
      | seg :: rest => (c :: seg) :: rest
      | [] => [[c]]

/-- `s.split(sep)` lifted back to strings. -/
def splitChar (sep : Char) (s : String) : List String :=
  (splitCharList sep s.data).map String.mk

/-- JavaScript `s.replace(/x/g, y)` for one-character `x`, `y` (the
rule's backslash normalization). -/
def replaceAllChar (s : String) (a b : Char) : String :=
  String.mk (s.data.map (fun c => if c == a then b else c))

end JsString

namespace EnforcePathAlias

open JsString

/-!
The `enforce-path-alias` rule runs on POSIX-style paths (`path.sep` is
`"/"`; `context.getCwd()` and `context.getFilename()` are absolute).
Node's `path` helpers are embedded below for that setting.
-/

/-- Normalize a `"/"`-split segment list: drop empty and `"."` segments
and let `".."` pop the previous segment (absolute paths cannot go above
the root, matching `path.resolve`). -/
def normSegs (segs : List String) : List String :=
  segs.foldl
    (fun acc seg =>
      if seg == ("") || seg == (".") then acc
      else if seg == ("..") then acc.dropLast
      else acc ++ [seg])
    []

/-- `path.resolve(base, rel)` for an absolute `base`: an absolute `rel`
wins, otherwise the concatenation is normalized. -/
def pathResolve (base rel : String) : String :=
  let s := if jsStartsWith rel ("/") then rel else base ++ ("/") ++ rel
  ("/") ++ String.intercalate ("/") (normSegs (splitChar '/' s))

/-- `path.join(a, b)` for the absolute `a` this rule joins against. -/
def pathJoin (a b : String) : String :=
  if b == ("") then a
  else ("/") ++ String.intercalate ("/") (normSegs (splitChar '/' (a ++ ("/") ++ b)))

/-- `path.dirname` (POSIX) restricted to the slash-containing inputs the
rule feeds it. -/
def dirname (s : String) : String :=
  match (splitChar '/' s).dropLast with
  | [] => (".")
  | [("")] => ("/")
  | ps => String.intercalate ("/") ps

/-- Drop the longest common segment prefix of two segment lists. -/
def dropCommon : List String → List String → List String × List String
  | x :: xs, y :: ys =>
    if x == y then dropCommon xs ys else (x :: xs, y :: ys)
  | xs, ys => (xs, ys)

/-- `path.relative(from, to)` for absolute arguments: strip the common
prefix, climb out of the remainder of `from` with `".."` segments, then
descend into the remainder of `to`. -/
def relativePath (f t : String) : String :=
  let r := dropCommon (normSegs (splitChar '/' f)) (normSegs (splitChar '/' t))
  String.intercalate ("/") (r.1.map (fun _ => ("..")) ++ r.2)

/-- A `compilerOptions.paths` mapping, as an insertion-ordered
association list of alias keys to target-glob arrays (a parsed JSON
object iterates in key order). -/
abbrev PathMap := List (String × List String)

/-- One key write of `Object.assign(dst, src)`: overwrite the value in
place when the key is present (keys of a parsed JSON object are
unique), append the pair otherwise. -/
def setKey : PathMap → String → List String → PathMap
  | [], k, v => [(k, v)]
  | e :: rest, k, v =>
    if e.1 == k then (e.1, v) :: rest else e :: setKey rest k v

/-- Fold `Object.assign` over the source's entries. -/
def objAssign (dst src : PathMap) : PathMap :=
  src.foldl (fun acc e => setKey acc e.1 e.2) dst

/-- `lookup` on a `PathMap` (JS property read). -/
def mapLookup (m : PathMap) (k : String) : Option (List String) :=
  (m.find? (fun e => e.1 == k)).map (fun e => e.2)

/-- The `compilerOptions` object of a tsconfig, as far as the rule reads
it.  `Option` fields model absent (or falsy, for the read guards the
rule uses) properties. -/
structure CompilerOptions where
  baseUrl : Option String
  paths : Option PathMap
deriving DecidableEq

/-- One element of a tsconfig `references` array. -/
structure TsRef where
  path : String
deriving DecidableEq

/-- A parsed tsconfig file. -/
structure Tsconfig where
  compilerOptions : Option CompilerOptions
  references : Option (List TsRef)
deriving DecidableEq

/-- A file-system node: a JSON file is carried together with the outcome
of `JSON.parse(fs.readFileSync(p))` (`none` for a read or parse error);
a directory carries its entry names for `fs.readdirSync`. -/
inductive FsEntry where
  | jsonFile (parsed : Option Tsconfig)
  | dir (entries : List String)
deriving DecidableEq

/-- The file system visible to one analysis session, keyed by absolute
path. -/
abbrev Fs := List (String × FsEntry)

/-- Path lookup. -/
def fsLookup (fs : Fs) (p : String) : Option FsEntry :=
  (fs.find? (fun e => e.1 == p)).map (fun e => e.2)

/-- `fs.existsSync`. -/
def fsExists (fs : Fs) (p : String) : Bool :=
  (fsLookup fs p).isSome

/-- `fs.statSync(p).isFile()` (guarded by `existsSync` in the rule). -/
def fsIsFile (fs : Fs) (p : String) : Bool :=
  match fsLookup fs p with
  | some (.jsonFile _) => true
  | _ => false

/-- `JSON.parse(fs.readFileSync(p, "utf8"))` under a `try`: reading a
missing path or a directory, or failing to parse, is the `none` case. -/
def fsReadJson (fs : Fs) (p : String) : Option Tsconfig :=
  match fsLookup fs p with
  | some (.jsonFile parsed) => parsed
  | _ => none

/-- The rule's options object before the `||`-style defaulting performed
at the top of `create` (`none` is an absent property). -/
structure RawOptions where
  mode : Option String
  configFile : Option String
  paths : Option PathMap
  baseUrl : Option String
  fallbackBaseUrl : Option String
  exclude : Option (List String)
  supportedExtensions : Option (List String)
  includeDeclarationFiles : Option Bool
deriving DecidableEq

/-- The schema default of `supportedExtensions`. -/
def defaultExtensions : List String :=
  [(".js"), (".jsx"), (".ts"), (".tsx"), (".vue"), (".svelte")]

/-- `tsconfig.compilerOptions?.paths` (with the truthiness guard). -/
def tsconfigPaths (cfg : Tsconfig) : Option PathMap :=
  cfg.compilerOptions.bind (fun co => co.paths)

/-- The tsconfig path probed for one project reference:
`fs.existsSync(refPath) && fs.statSync(refPath).isFile() ? refPath :
path.join(refPath, "tsconfig.json")`. -/
def refConfigPath (fs : Fs) (projectRoot refp : String) : String :=
  let refPath := pathResolve projectRoot refp
  if fsExists fs refPath && fsIsFile fs refPath then refPath
  else pathJoin refPath ("tsconfig.json")

/-- Merge one reference's `paths` into the accumulator; a missing file
or a failing read/parse is swallowed, keeping the accumulator. -/
def refContribution (fs : Fs) (projectRoot : String) (allPaths : PathMap)
    (ref : TsRef) : PathMap :=
  let refTsconfigPath := refConfigPath fs projectRoot ref.path
  if fsExists fs refTsconfigPath then
    match fsReadJson fs refTsconfigPath with
    | some refTsconfig =>
      match tsconfigPaths refTsconfig with
      | some p => objAssign allPaths p
      | none => allPaths
    | none => allPaths
  else
    allPaths

/-- `resolveProjectReferences(tsconfigPath)`: parse the project config
(any error yields `{}`); without a `references` array return its own
`paths`; with one, start from the parent's `paths` and `Object.assign`
each readable reference's `paths` over the accumulator in order. -/
def resolveProjectReferences (fs : Fs) (tsconfigPath : String) : PathMap :=
  match fsReadJson fs tsconfigPath with
  | none => []
  | some tsconfig =>
    let projectRoot := dirname tsconfigPath
    match tsconfig.references with
    | some refs =>
      let init :=
        match tsconfigPaths tsconfig with
        | some p => objAssign [] p
        | none => []
      refs.foldl (refContribution fs projectRoot) init
    | none =>
      match tsconfigPaths tsconfig with
      | some p => p
      | none => []

/-- `detectBaseUrl`'s directory probe: the first of the conventional
directories that exists, is a directory, and either contains a
non-hidden source file or is named `src` or `app`. -/
def probeDirs (fs : Fs) (cwd : String) (exts : List String) :
    List String → Option String
  | [] => none
  | d :: rest =>
    let dirPath := pathJoin cwd (if d == (".") then ("") else d)
    match fsLookup fs dirPath with
    | some (.dir files) =>
      let hasSourceFiles :=
        files.any (fun f =>
          exts.any (fun ext => jsEndsWith f ext) && !(jsStartsWith f (".")))
      if hasSourceFiles || d == ("src") || d == ("app") then
        some (if d == (".") then ("./") else (("./") ++ d))
      else
        probeDirs fs cwd exts rest
    | _ => probeDirs fs cwd exts rest

/-- `detectBaseUrl()`: a user-set `baseUrl` wins; else a `baseUrl` read
from the project config; else the conventional-directory probe; else
the fallback. -/
def detectBaseUrl (fs : Fs) (userBaseUrl : Option String) (configFile : String)
    (exts : List String) (isTypeScript : Bool) (fallbackBaseUrl cwd : String) :
    String :=
  match userBaseUrl with
  | some u => u
  | none =>
    let tsconfigPath := pathJoin cwd configFile
    let fromTsconfig : Option String :=
      match fsReadJson fs tsconfigPath with
      | some cfg => cfg.compilerOptions.bind (fun co => co.baseUrl)
      | none => none
    match fromTsconfig with
    | some b => b
    | none =>
      let commonDirs :=
        if isTypeScript then [("src"), ("lib"), ("app"), (".")]
        else [("src"), ("app"), ("lib"), (".")]
      match probeDirs fs cwd exts commonDirs with
      | some d => d
      | none => fallbackBaseUrl

/-- One alias pattern derived from a `paths` entry: the alias with its
`/*` stripped, and the first target (its `/*` stripped) resolved
against the base directory.  (The rule also builds an `aliasRegex`
field, but never reads it.) -/
structure AliasPattern where
  aliasName : String
  targetPath : String
deriving DecidableEq

/-- `createAliasPatterns(pathMappings)`. -/
def createAliasPatterns (cwd finalBaseUrl : String) (pathMappings : PathMap) :
    List AliasPattern :=
  pathMappings.map (fun e =>
    { aliasName := replaceFirst e.1 ("/*") ("")
      targetPath :=
        pathResolve (pathResolve cwd finalBaseUrl)
          (((e.2.head?).map (fun t => replaceFirst t ("/*") (""))).getD ("")) })

/-- `isDirectChildOfSrc(filePath)`: the path relative to the base
directory splits into exactly two `path.sep` parts and does not climb
out of the base. -/
def isDirectChildOfSrc (cwd finalBaseUrl filePath : String) : Bool :=
  let srcPath := pathResolve cwd finalBaseUrl
  let relPath := relativePath srcPath filePath
  (splitChar '/' relPath).length == 2 && !(jsStartsWith relPath (".."))

/-- `shouldUseAlias(importPath, currentFilePath)`. -/
def shouldUseAlias (mode : String) (excludeFolders : List String)
    (cwd finalBaseUrl : String) (importPath currentFilePath : String) : Bool :=
  if !(jsStartsWith importPath ("../")) && !(jsStartsWith importPath ("./")) then
    false
  else
    let resolvedImportPath := pathResolve (dirname currentFilePath) importPath
    let relativeToCwd := relativePath cwd resolvedImportPath
    if excludeFolders.any (fun f => jsStartsWith relativeToCwd f) then
      false
    else if mode == ("direct-children") then
      isDirectChildOfSrc cwd finalBaseUrl resolvedImportPath
    else
      jsStartsWith resolvedImportPath (pathResolve cwd finalBaseUrl)

/-- `findMatchingAlias(importPath, currentFilePath, patterns)`: the
first pattern whose resolved target is a string prefix of the
resolved import yields `alias + "/" + relative`, backslashes normalized to
forward slashes. -/
def findMatchingAlias (currentFilePath importPath : String)
    (patterns : List AliasPattern) : Option String :=
  let resolvedImportPath := pathResolve (dirname currentFilePath) importPath
  (patterns.find? (fun p => jsStartsWith resolvedImportPath p.targetPath)).map
    (fun p =>
      replaceAllChar (p.aliasName ++ ("/") ++ relativePath p.targetPath resolvedImportPath)
        '\\' '/')

/-- A string literal node, with both its cooked `value` and its `raw`
source text (including the quote characters). -/
structure StringLiteral where
  value : String
  raw : String
deriving DecidableEq

/-- A `CallExpression` argument: a string `Literal` or anything else. -/
inductive CallArg where
  | literal (lit : StringLiteral)
  | nonLiteral
deriving DecidableEq

/-- The traversal events this rule registers for. -/
inductive AliasEvent where
  | importDecl (source : StringLiteral)
  | callExpression (calleeName : Option String) (args : List CallArg)
deriving DecidableEq

/-- A diagnostic of this rule: the anchored node (event index), the
literal message, and the text the fix writes over the string literal's
entire span (`fixer.replaceText(node, ...)`). -/
structure AliasDiag where
  anchor : Nat
  message : String
  fixReplacement : String
deriving DecidableEq

/-- The shared body of the two visitors: report when `shouldUseAlias`
holds and a pattern matches, attaching the single-quoted replacement. -/
def aliasImportCheck (mode : String) (excludeFolders : List String)
    (cwd finalBaseUrl currentFilePath : String) (patterns : List AliasPattern)
    (idx : Nat) (importPath kindWord : String) : List AliasDiag :=
  if shouldUseAlias mode excludeFolders cwd finalBaseUrl importPath currentFilePath then
    match findMatchingAlias currentFilePath importPath patterns with
    | some suggestedAlias =>
      [ { anchor := idx
          message :=
            ("Use path alias '") ++ suggestedAlias ++ ("' instead of relative ") ++
              kindWord ++ (" '") ++ importPath ++ ("'")
          fixReplacement := ("'") ++ suggestedAlias ++ ("'") } ]
    | none => []
  else
    []

/-- Walk the traversal events: `ImportDeclaration` checks
`node.source.value`; `CallExpression` checks `require` calls whose
single argument is a string literal. -/
def aliasEvents (mode : String) (excludeFolders : List String)
    (cwd finalBaseUrl currentFilePath : String) (patterns : List AliasPattern) :
    Nat → List AliasEvent → List AliasDiag
  | _, [] => []
  | idx, e :: rest =>
    (match e with
     | .importDecl lit =>
       aliasImportCheck mode excludeFolders cwd finalBaseUrl currentFilePath
         patterns idx lit.value ("import")
     | .callExpression calleeName args =>
       match calleeName, args with
       | some n, [.literal lit] =>
         if n == ("require") then
           aliasImportCheck mode excludeFolders cwd finalBaseUrl currentFilePath
             patterns idx lit.value ("require")
         else
           []
       | _, _ => []) ++
      aliasEvents mode excludeFolders cwd finalBaseUrl currentFilePath patterns
        (idx + 1) rest

/-- The whole rule on one file.  `autoPathMappings` stands for the value
`getPathMappings()` computes when `options.paths` is absent (its
tsconfig branch is `resolveProjectReferences` above; its last-resort
vite-config text scan is outside every claim and enters only through
this parameter) — with `options.paths` present, that branch is skipped
verbatim.  Both early returns of `create` (declaration files, and
unsupported extensions) happen before any configuration value is
consulted. -/
def runAliasRule (fs : Fs) (raw : RawOptions) (cwd filename : String)
    (autoPathMappings : PathMap) (events : List AliasEvent) : List AliasDiag :=
  let mode := raw.mode.getD ("direct-children")
  let configFile := raw.configFile.getD ("tsconfig.json")
  let fallbackBaseUrl := raw.fallbackBaseUrl.getD ("./src")
  let excludeFolders := raw.exclude.getD []
  let supportedExtensions := raw.supportedExtensions.getD defaultExtensions
  let includeDeclarationFiles := raw.includeDeclarationFiles.getD false
  let isTypeScript := jsEndsWith filename (".ts") || jsEndsWith filename (".tsx")
  let isDeclarationFile := jsEndsWith filename (".d.ts")
  if isDeclarationFile && !includeDeclarationFiles then
    []
  else if !(supportedExtensions.any (fun ext => jsEndsWith filename ext)) then
    []
  else
    let finalBaseUrl :=
      detectBaseUrl fs raw.baseUrl configFile supportedExtensions isTypeScript
        fallbackBaseUrl cwd
    let pathMappings :=
      match raw.paths with
      | some m => m
      | none => autoPathMappings
    let patterns := createAliasPatterns cwd finalBaseUrl pathMappings
    aliasEvents mode excludeFolders cwd finalBaseUrl filename patterns 0 events

end EnforcePathAlias

/-!
## Theorems about the claims

Helper lemmas come first, then the claim theorems with their witnesses
and counterexamples.
-/

open NoNamespaceImport NoArrowComponents JsString EnforcePathAlias

/-- Claim C1: in a file whose only default-style import of a checkable
module is namespace-accessed via four distinct property names, the rule
emits exactly four inline diagnostics (one per access site, never
deduplicated) and exactly one summary diagnostic anchored at the import
whose properties string is the first three names joined by `", "`
followed by `", ..."`. -/
theorem c1_four_distinct_namespace_accesses
    (o : NsOptions) (isTS : Bool) (m x p1 p2 p3 p4 : String)
    (hcheck : shouldCheckLibrary o m = true)
    (h12 : p1 ≠ p2) (h13 : p1 ≠ p3) (h14 : p1 ≠ p4)
    (h23 : p2 ≠ p3) (h24 : p2 ≠ p4) (h34 : p3 ≠ p4) :
    (runNsRule o isTS
      [ .importDecl { source := m, importKind := "value", specifiers := [.importDefaultSpecifier x] },
        .memberExpr { object := .ident x, property := .ident p1 },
        .memberExpr { object := .ident x, property := .ident p2 },
        .memberExpr { object := .ident x, property := .ident p3 },
        .memberExpr { object := .ident x, property := .ident p4 } ]).map
      (fun d => (d.anchor, d.messageId, d.data))
    = [ (1, "noNamespaceUsage", [("objectName", x), ("propertyName", p1), ("libraryName", m)]),
        (2, "noNamespaceUsage", [("objectName", x), ("propertyName", p2), ("libraryName", m)]),
        (3, "noNamespaceUsage", [("objectName", x), ("propertyName", p3), ("libraryName", m)]),
        (4, "noNamespaceUsage", [("objectName", x), ("propertyName", p4), ("libraryName", m)]),
        (0, "noDefaultImportForNamespace",
          [("importName", x), ("libraryName", m),
           ("properties", p1 ++ ", " ++ p2 ++ ", " ++ p3 ++ ", ...")]) ] := by
  simp [runNsRule, processEvents, processImport, hcheck, List.find?,
    Specifier.isDefault, recordImport, processMember, memberLookup, markFirst, addToSet,
    programExit, summaryDiag, propertiesStringOf, String.intercalate, String.intercalate.go,
    h12, h13, h14, h23, h24, h34,
    Ne.symm h12, Ne.symm h13, Ne.symm h14, Ne.symm h23, Ne.symm h24, Ne.symm h34]

/-- Witness for C1 at a concrete file (`import _ from 'lodash'` followed
by `_.map`, `_.filter`, `_.reduce`, `_.uniq`). -/
theorem c1_four_distinct_namespace_accesses_witness :
    (runNsRule ⟨[], [], true, false⟩ false
      [ .importDecl { source := "lodash", importKind := "value", specifiers := [.importDefaultSpecifier "_"] },
        .memberExpr { object := .ident "_", property := .ident "map" },
        .memberExpr { object := .ident "_", property := .ident "filter" },
        .memberExpr { object := .ident "_", property := .ident "reduce" },
        .memberExpr { object := .ident "_", property := .ident "uniq" } ]).map
      (fun d => (d.anchor, d.messageId, d.data))
    = [ (1, "noNamespaceUsage", [("objectName", "_"), ("propertyName", "map"), ("libraryName", "lodash")]),
        (2, "noNamespaceUsage", [("objectName", "_"), ("propertyName", "filter"), ("libraryName", "lodash")]),
        (3, "noNamespaceUsage", [("objectName", "_"), ("propertyName", "reduce"), ("libraryName", "lodash")]),
        (4, "noNamespaceUsage", [("objectName", "_"), ("propertyName", "uniq"), ("libraryName", "lodash")]),
        (0, "noDefaultImportForNamespace",
          [("importName", "_"), ("libraryName", "lodash"),
           ("properties", "map" ++ ", " ++ "filter" ++ ", " ++ "reduce" ++ ", ...")]) ] :=
  c1_four_distinct_namespace_accesses ⟨[], [], true, false⟩ false
    "lodash" "_" "map" "filter" "reduce" "uniq" (by decide)
    (by decide) (by decide) (by decide) (by decide) (by decide) (by decide)

/-- Counterexample to claim C2: in a TypeScript file with
`checkTypeScriptTypes: false`, a type-only default import of a
non-exempt module is still recorded (as a value import), so a namespace
access on it produces an inline and a summary diagnostic — not zero as
the claim states; and with `checkTypeScriptTypes: true` and
`allowTypeNamespaces: true` the import is not recorded at all (no
evidence is tracked), while the claim states it is recorded. -/
theorem c2_counterexample :
    (runNsRule ⟨[], [], false, false⟩ true
        [ .importDecl { source := "mylib", importKind := "type",
                        specifiers := [.importDefaultSpecifier "T"] },
          .memberExpr { object := .ident "T", property := .ident "Props" } ]).map
      (fun d => d.messageId)
      = ["noNamespaceUsage", "noDefaultImportForNamespace"]
    ∧ nsFinalState ⟨[], [], true, true⟩ true
        [ .importDecl { source := "mylib", importKind := "type",
                        specifiers := [.importDefaultSpecifier "T"] } ] = [] := by
  constructor
  · rfl
  · rfl

/-- Claim C2, amended to what the code does: when `checkTypeScriptTypes`
is false, a type-only default import of a checkable module is recorded
like a value import (`isTypeImport = false`), so its namespace accesses
are diagnosed with the value-flavoured messages; when
`checkTypeScriptTypes` and `allowTypeNamespaces` are both true (in a
TypeScript file), the import is skipped entirely — not recorded, hence
never reported. -/
theorem c2_type_import_handling
    (o : NsOptions) (isTypeScript : Bool) (st : NsState) (idx : Nat)
    (node : ImportDeclNode) (localName : String)
    (hkind : node.importKind = "type") (hTS : isTypeScript = true)
    (hcheck : shouldCheckLibrary o node.source = true)
    (hspec : node.specifiers.find? Specifier.isDefault =
      some (.importDefaultSpecifier localName)) :
    (o.checkTypeScriptTypes = false →
      processImport o isTypeScript idx node st =
        recordImport st node.source
          { nodeIdx := idx, node := node, localName := localName,
            libraryName := node.source, isUsedAsNamespace := false,
            namespacedProperties := [], isTypeImport := false })
    ∧ (o.checkTypeScriptTypes = true → o.allowTypeNamespaces = true →
      processImport o isTypeScript idx node st = st) := by
  constructor
  · intro hc
    simp [processImport, hcheck, hspec, hkind, hTS, hc]
  · intro hc ha
    simp [processImport, hcheck, hspec, hkind, hTS, hc, ha]

/-- Witness for the amended C2 at a concrete type-only import,
instantiating both conjuncts. -/
theorem c2_type_import_handling_witness :
    (processImport ⟨[], [], false, false⟩ true 0
        { source := "mylib", importKind := "type",
          specifiers := [.importDefaultSpecifier "T"] } [] =
      recordImport [] "mylib"
        { nodeIdx := 0,
          node := { source := "mylib", importKind := "type",
                    specifiers := [.importDefaultSpecifier "T"] },
          localName := "T", libraryName := "mylib", isUsedAsNamespace := false,
          namespacedProperties := [], isTypeImport := false })
    ∧ processImport ⟨[], [], true, true⟩ true 0
        { source := "mylib", importKind := "type",
          specifiers := [.importDefaultSpecifier "T"] } [] = [] := by
  constructor
  · exact (c2_type_import_handling ⟨[], [], false, false⟩ true [] 0
      { source := "mylib", importKind := "type", specifiers := [.importDefaultSpecifier "T"] }
      "T" rfl rfl (by decide) (by decide)).1 rfl
  · exact (c2_type_import_handling ⟨[], [], true, true⟩ true [] 0
      { source := "mylib", importKind := "type", specifiers := [.importDefaultSpecifier "T"] }
      "T" rfl rfl (by decide) (by decide)).2 rfl rfl

/-- Claim C4 (code evaluation): for the top-level statement
`const Foo = () => 1, bar = () => 2` (a non-TypeScript file,
`allowArrowFunctions: false`), the rule reports only `Foo` — the
component report returns from the whole `VariableDeclaration` callback,
so `bar` is never classified; and for
`const Foo = memo(() => 1), bar = () => 2` the higher-order exemption
likewise returns, so nothing at all is reported — `bar`'s diagnostic is
lost in both cases, contradicting per-declarator independence. -/
theorem c4_declaration_wide_return :
    runVariableDeclaration false true false
      { parentType := "Program",
        declarations :=
          [ { declType := "VariableDeclarator", idIsIdentifier := true,
              name := "Foo", init := some (.arrowFunctionExpression .otherExpr) },
            { declType := "VariableDeclarator", idIsIdentifier := true,
              name := "bar", init := some (.arrowFunctionExpression .otherExpr) } ] }
      = [{ declName := "Foo", messageId := "arrowComponent" }]
    ∧ runVariableDeclaration false true false
      { parentType := "Program",
        declarations :=
          [ { declType := "VariableDeclarator", idIsIdentifier := true,
              name := "Foo", init := some (.callExpression ["ArrowFunctionExpression"]) },
            { declType := "VariableDeclarator", idIsIdentifier := true,
              name := "bar", init := some (.arrowFunctionExpression .otherExpr) } ] }
      = [] := by
  constructor
  · rfl
  · rfl

/-- Counterexample to claim C5: in richer (TypeScript) mode, a
PascalCase binding whose arrow initializer has a block body with no
JSX-returning statement is NOT classified as a component (the JSX scan's
result is returned directly instead of falling back to the naming
heuristic). -/
theorem c5_counterexample :
    isReactComponent true true
      { declType := "VariableDeclarator", idIsIdentifier := true, name := "Foo",
        init := some (.arrowFunctionExpression
          (.blockStatement [.returnStmt (some "Literal")])) }
      "Foo" = false := by
  rfl

/-- Claim C5, amended to what the code does: for a PascalCase name,
naming alone classifies the binding as a component outside richer mode,
and in richer mode whenever the initializer is not an arrow function or
the arrow body is an expression other than a JSX element; but in richer
mode an arrow initializer with a block body is classified as a
component exactly when some top-level statement returns a JSX
element. -/
theorem c5_pascal_component_classification
    (name : String) (decl : Declarator)
    (hpascal : isPascalCase name = true) :
    (∀ stmts, decl.init = some (.arrowFunctionExpression (.blockStatement stmts)) →
      (isReactComponent true true decl name = true ↔
        stmts.any Stmt.isJSXReturn = true))
    ∧ (decl.init = some (.arrowFunctionExpression .otherExpr) →
      isReactComponent true true decl name = true)
    ∧ (decl.init = some .functionExpression →
      isReactComponent true true decl name = true)
    ∧ isReactComponent false true decl name = true := by
  refine ⟨?_, ?_, ?_, ?_⟩
  · intro stmts hinit
    simp [isReactComponent, hpascal, hinit]
  · intro hinit
    simp [isReactComponent, hpascal, hinit]
  · intro hinit
    simp [isReactComponent, hpascal, hinit]
  · simp [isReactComponent, hpascal]

/-- Witness for the amended C5: `Foo` with a JSX-returning block body is
a component in richer mode; with a non-JSX expression body, naming
alone suffices. -/
theorem c5_pascal_component_classification_witness :
    (isReactComponent true true
      { declType := "VariableDeclarator", idIsIdentifier := true, name := "Foo",
        init := some (.arrowFunctionExpression
          (.blockStatement [.returnStmt (some "JSXElement")])) }
      "Foo" = true ↔ ([Stmt.returnStmt (some "JSXElement")].any Stmt.isJSXReturn = true))
    ∧ isReactComponent true true
      { declType := "VariableDeclarator", idIsIdentifier := true, name := "Foo",
        init := some (.arrowFunctionExpression .otherExpr) }
      "Foo" = true := by
  constructor
  · exact (c5_pascal_component_classification "Foo"
      { declType := "VariableDeclarator", idIsIdentifier := true, name := "Foo",
        init := some (.arrowFunctionExpression
          (.blockStatement [.returnStmt (some "JSXElement")])) }
      (by decide)).1 [.returnStmt (some "JSXElement")] rfl
  · exact (c5_pascal_component_classification "Foo"
      { declType := "VariableDeclarator", idIsIdentifier := true, name := "Foo",
        init := some (.arrowFunctionExpression .otherExpr) }
      (by decide)).2.1 rfl

theorem find?_isDefault_map (names : List String) :
    (names.map Specifier.importSpecifier).find? Specifier.isDefault = none := by
  induction names with
  | nil => rfl
  | cons a as ih => simp [List.find?, Specifier.isDefault, ih]

theorem processImport_no_default (o : NsOptions) (ts : Bool) (idx : Nat)
    (node : ImportDeclNode) (st : NsState)
    (h : node.specifiers.find? Specifier.isDefault = none) :
    processImport o ts idx node st = st := by
  unfold processImport
  rw [h]
  simp

theorem processMember_nil (idx : Nat) (m : MemberExprNode) :
    processMember idx m [] = ([], []) := by
  obtain ⟨obj, prop⟩ := m
  cases obj <;> cases prop <;> simp [processMember, memberLookup]

theorem processEvents_no_default (o : NsOptions) (ts : Bool) (events : List Event)
    (h : ∀ d, Event.importDecl d ∈ events →
      d.specifiers.find? Specifier.isDefault = none) :
    ∀ idx, processEvents o ts idx [] events = ([], []) := by
  induction events with
  | nil => intro idx; rfl
  | cons e rest ih =>
    intro idx
    cases e with
    | importDecl d =>
      rw [processEvents, processImport_no_default o ts idx d []
        (h d (List.mem_cons_self _ _))]
      exact ih (fun d' hd' => h d' (List.mem_cons_of_mem _ hd')) (idx + 1)
    | memberExpr m =>
      rw [processEvents]
      rw [processMember_nil idx m]
      rw [ih (fun d' hd' => h d' (List.mem_cons_of_mem _ hd')) (idx + 1)]
      rfl

/-- Claim C8: an import declaration of the shape produced by the summary
fix (named specifiers only, no default-style specifier) never creates
an import record, so re-running the detector on a file made of such imports
and arbitrary member accesses yields zero diagnostics — the fix is
idempotent. -/
theorem c8_fix_idempotent (o : NsOptions) (isTypeScript isType : Bool)
    (names : List String) (lib : String) (events : List Event)
    (hnodefault : ∀ d, Event.importDecl d ∈ events →
      d.specifiers.find? Specifier.isDefault = none) :
    runNsRule o isTypeScript (.importDecl (fixedImportAst isType names lib) :: events) = [] := by
  have hall : ∀ d, Event.importDecl d ∈
      (Event.importDecl (fixedImportAst isType names lib) :: events) →
      d.specifiers.find? Specifier.isDefault = none := by
    intro d hd
    rcases List.mem_cons.mp hd with h1 | h1
    · cases h1
      exact find?_isDefault_map names
    · exact hnodefault d h1
  unfold runNsRule
  rw [processEvents_no_default o isTypeScript _ hall 0]
  rfl

/-- Witness for C8: re-running the rule on the fixed form
`import { map, uniq } from 'lodash';` with a leftover member access
yields no diagnostics. -/
theorem c8_fix_idempotent_witness :
    runNsRule ⟨[], [], true, false⟩ false
      (.importDecl (fixedImportAst false ["map", "uniq"] "lodash") ::
        [.memberExpr { object := .ident "lodash", property := .ident "map" }]) = [] :=
  c8_fix_idempotent ⟨[], [], true, false⟩ false false ["map", "uniq"] "lodash"
    [.memberExpr { object := .ident "lodash", property := .ident "map" }]
    (by intro d hd; simp at hd)

theorem contains_true_ne_nil {l : List String} {x : String}
    (h : l.contains x = true) : l ≠ [] := by
  intro hl
  subst hl
  simp at h

theorem addToSet_ne_nil (l : List String) (x : String) : addToSet l x ≠ [] := by
  unfold addToSet
  split
  · exact contains_true_ne_nil (by assumption)
  · simp

theorem foldl_addToSet_ne_nil (l : List String) :
    ∀ acc : List String, acc ≠ [] → l.foldl addToSet acc ≠ [] := by
  induction l with
  | nil => intro acc h; simpa using h
  | cons x xs ih =>
    intro acc _
    rw [List.foldl_cons]
    exact ih _ (addToSet_ne_nil acc x)

theorem jsSetOfList_append_ne_nil (a props : List String) (h : props ≠ []) :
    jsSetOfList (a ++ props) ≠ [] := by
  unfold jsSetOfList
  cases a with
  | nil =>
    cases props with
    | nil => exact absurd rfl h
    | cons p ps =>
      rw [List.nil_append, List.foldl_cons]
      exact foldl_addToSet_ne_nil ps _ (addToSet_ne_nil [] p)
  | cons x xs =>
    rw [List.cons_append, List.foldl_cons]
    exact foldl_addToSet_ne_nil _ _ (addToSet_ne_nil [] x)

theorem markFirst_ok (objectName propertyName : String) :
    ∀ imps : List ImportInfo,
      (∀ imp ∈ imps, imp.isUsedAsNamespace = true → imp.namespacedProperties ≠ []) →
      ∀ imp ∈ markFirst objectName propertyName imps,
        imp.isUsedAsNamespace = true → imp.namespacedProperties ≠ [] := by
  intro imps
  induction imps with
  | nil => intro _ imp h'; simp [markFirst] at h'
  | cons a as ih =>
    intro h imp hmem
    simp only [markFirst] at hmem
    by_cases hc : (a.localName == objectName) = true
    · rw [if_pos hc] at hmem
      rcases List.mem_cons.mp hmem with h1 | h1
      · subst h1
        intro _
        exact addToSet_ne_nil _ _
      · exact h imp (List.mem_cons_of_mem _ h1)
    · rw [if_neg hc] at hmem
      rcases List.mem_cons.mp hmem with h1 | h1
      · rw [h1]
        exact h a (List.mem_cons_self _ _)
      · exact ih (fun i hi => h i (List.mem_cons_of_mem _ hi)) imp h1

theorem nsInv_recordImport (st : NsState) (lib : String) (info : ImportInfo)
    (h : NsInv st) (hinfo : info.isUsedAsNamespace = false) :
    NsInv (recordImport st lib info) := by
  intro e he imp himp hused
  simp only [recordImport, List.mem_map] at he
  obtain ⟨e0, he0, rfl⟩ := he
  have he0' : e0 ∈ st ∨ e0 = (lib, []) := by
    by_cases hc : (st.any (fun e => e.1 == lib)) = true
    · rw [if_pos hc] at he0
      exact .inl he0
    · rw [if_neg hc] at he0
      rcases List.mem_append.mp he0 with h1 | h1
      · exact .inl h1
      · exact .inr (List.mem_singleton.mp h1)
  by_cases hc2 : (e0.1 == lib) = true
  · rw [if_pos hc2] at himp
    rcases List.mem_append.mp himp with h1 | h1
    · rcases he0' with h2 | h2
      · exact h e0 h2 imp h1 hused
      · rw [h2] at h1
        simp at h1
    · rw [List.mem_singleton.mp h1] at hused
      rw [hused] at hinfo
      cases hinfo
  · rw [if_neg hc2] at himp
    rcases he0' with h2 | h2
    · exact h e0 h2 imp himp hused
    · rw [h2] at himp
      simp at himp

theorem nsInv_memberLookup (objectName propertyName : String) :
    ∀ (st st' : NsState) (lib : String) (t : Bool), NsInv st →
      memberLookup objectName propertyName st = some (st', lib, t) → NsInv st' := by
  intro st
  induction st with
  | nil =>
    intro st' lib t _ hm
    simp [memberLookup] at hm
  | cons e rest ih =>
    intro st' lib t h hm
    obtain ⟨elib, imps⟩ := e
    rw [memberLookup] at hm
    cases hfind : imps.find? (fun imp => imp.localName == objectName) with
    | some imp0 =>
      rw [hfind] at hm
      injection hm with hm
      injection hm with hm1 hm2
      rw [← hm1]
      intro e' he' imp himp hused
      rcases List.mem_cons.mp he' with h4 | h4
      · rw [h4] at himp
        exact markFirst_ok objectName propertyName imps
          (fun i hi => h (elib, imps) (List.mem_cons_self _ _) i hi) imp himp hused
      · exact h e' (List.mem_cons_of_mem _ h4) imp himp hused
    | none =>
      rw [hfind] at hm
      cases hrec : memberLookup objectName propertyName rest with
      | some r =>
        obtain ⟨st'', lib', t'⟩ := r
        rw [hrec] at hm
        injection hm with hm
        injection hm with hm1 hm2
        rw [← hm1]
        intro e' he' imp himp hused
        rcases List.mem_cons.mp he' with h4 | h4
        · rw [h4] at himp
          exact h (elib, imps) (List.mem_cons_self _ _) imp himp hused
        · exact ih st'' lib' t'
            (fun e2 he2 i hi hu => h e2 (List.mem_cons_of_mem _ he2) i hi hu)
            hrec e' h4 imp himp hused
      | none =>
        rw [hrec] at hm
        cases hm

theorem nsInv_processImport (o : NsOptions) (ts : Bool) (idx : Nat)
    (node : ImportDeclNode) (st : NsState) (h : NsInv st) :
    NsInv (processImport o ts idx node st) := by
  unfold processImport
  split
  · split
    · dsimp only
      split
      · exact h
      · exact nsInv_recordImport st node.source _ h rfl
    · exact h
  · exact h

theorem nsInv_processMember (idx : Nat) (m : MemberExprNode) (st : NsState)
    (h : NsInv st) :
    NsInv (processMember idx m st).1 ∧
      ∀ d ∈ (processMember idx m st).2,
        ∃ text, d.fix = some (.replaceText d.anchor text) := by
  obtain ⟨obj, prop⟩ := m
  cases obj with
  | other =>
    cases prop <;> exact ⟨h, by simp [processMember]⟩
  | ident oname =>
    cases prop with
    | other => exact ⟨h, by simp [processMember]⟩
    | ident pname =>
      simp only [processMember]
      cases hm : memberLookup oname pname st with
      | some r =>
        obtain ⟨st', lib, t⟩ := r
        constructor
        · exact nsInv_memberLookup oname pname st st' lib t h hm
        · intro d hd
          rw [List.mem_singleton] at hd
          rw [hd]
          exact ⟨pname, rfl⟩
      | none => exact ⟨h, by simp⟩

theorem processEvents_inv (o : NsOptions) (ts : Bool) (events : List Event) :
    ∀ (idx : Nat) (st : NsState), NsInv st →
      NsInv (processEvents o ts idx st events).1 ∧
        ∀ d ∈ (processEvents o ts idx st events).2,
          ∃ text, d.fix = some (.replaceText d.anchor text) := by
  induction events with
  | nil =>
    intro idx st h
    exact ⟨h, by simp [processEvents]⟩
  | cons e rest ih =>
    intro idx st h
    cases e with
    | importDecl d =>
      rw [processEvents]
      exact ih (idx + 1) _ (nsInv_processImport o ts idx d st h)
    | memberExpr m =>
      rw [processEvents]
      obtain ⟨h1, h2⟩ := nsInv_processMember idx m st h
      obtain ⟨h3, h4⟩ := ih (idx + 1) _ h1
      refine ⟨h3, ?_⟩
      intro d hd
      rcases List.mem_append.mp hd with hd1 | hd1
      · exact h2 d hd1
      · exact h4 d hd1

theorem programExit_fix_shape :
    ∀ st : NsState, NsInv st →
      ∀ d ∈ programExit st, ∃ text, d.fix = some (.replaceText d.anchor text) := by
  intro st
  induction st with
  | nil =>
    intro _ d hd
    simp [programExit] at hd
  | cons e rest ih =>
    intro h d hd
    obtain ⟨lib, imps⟩ := e
    rw [programExit] at hd
    rcases List.mem_append.mp hd with hd1 | hd1
    · rw [List.mem_map] at hd1
      obtain ⟨imp, himp, rfl⟩ := hd1
      rw [List.mem_filter] at himp
      obtain ⟨himps, hused⟩ := himp
      have hprops : imp.namespacedProperties ≠ [] :=
        h (lib, imps) (List.mem_cons_self _ _) imp himps hused
      have hne := jsSetOfList_append_ne_nil
        (jsSetOfList (imp.node.specifiers.filterMap (fun s =>
          match s with
          | .importSpecifier n => some n
          | _ => none)))
        imp.namespacedProperties hprops
      have hemp : (jsSetOfList
          (jsSetOfList (imp.node.specifiers.filterMap (fun s =>
            match s with
            | .importSpecifier n => some n
            | _ => none)) ++ imp.namespacedProperties)).isEmpty = false := by
        cases hlist : jsSetOfList
            (jsSetOfList (imp.node.specifiers.filterMap (fun s =>
              match s with
              | .importSpecifier n => some n
              | _ => none)) ++ imp.namespacedProperties) with
        | nil => exact absurd hlist hne
        | cons x xs => rfl
      refine ⟨renderNamedImport imp.isTypeImport
        (sortStrings (jsSetOfList
          (jsSetOfList (imp.node.specifiers.filterMap (fun s =>
            match s with
            | .importSpecifier n => some n
            | _ => none)) ++ imp.namespacedProperties))) lib, ?_⟩
      simp only [summaryDiag, summaryFix, hemp, Bool.false_eq_true, if_false]
    · exact ih (fun e2 he2 i hi hu => h e2 (List.mem_cons_of_mem _ he2) i hi hu) d hd1

/-- Claim C9: whenever the namespace rule emits a summary diagnostic,
the record's evidence set is non-empty (it is only marked used together
with a recorded property), so the union with the existing named imports
is non-empty and the fix's delete branch is unreachable: every emitted
summary fix replaces the import declaration (at the diagnostic's own
anchor), never removes it. -/
theorem c9_summary_fix_is_replacement (o : NsOptions) (isTypeScript : Bool)
    (events : List Event) (d : Diagnostic)
    (hd : d ∈ runNsRule o isTypeScript events)
    (hsum : d.messageId = "noDefaultImportForNamespace" ∨
      d.messageId = "noDefaultTypeImportForNamespace") :
    ∃ text, d.fix = some (.replaceText d.anchor text) := by
  simp only [runNsRule] at hd
  have h0 : NsInv ([] : NsState) := by
    intro e he
    simp at he
  obtain ⟨h1, h2⟩ := processEvents_inv o isTypeScript events 0 [] h0
  rcases List.mem_append.mp hd with hd1 | hd1
  · exact h2 d hd1
  · exact programExit_fix_shape _ h1 d hd1

/-- Witness for C9 at the concrete summary diagnostic of
`import _ from 'lodash'; _.map(x)`. -/
theorem c9_summary_fix_is_replacement_witness :
    ∃ text,
      (Diagnostic.mk 0 "noDefaultImportForNamespace"
        [("importName", "_"), ("libraryName", "lodash"), ("properties", "map")]
        (some (.replaceText 0 "import \x7b map \x7d from 'lodash';"))).fix
      = some (.replaceText
          (Diagnostic.mk 0 "noDefaultImportForNamespace"
            [("importName", "_"), ("libraryName", "lodash"), ("properties", "map")]
            (some (.replaceText 0 "import \x7b map \x7d from 'lodash';"))).anchor
          text) :=
  c9_summary_fix_is_replacement ⟨[], [], true, false⟩ false
    [ .importDecl { source := "lodash", importKind := "value",
                    specifiers := [.importDefaultSpecifier "_"] },
      .memberExpr { object := .ident "_", property := .ident "map" } ]
    (Diagnostic.mk 0 "noDefaultImportForNamespace"
      [("importName", "_"), ("libraryName", "lodash"), ("properties", "map")]
      (some (.replaceText 0 "import \x7b map \x7d from 'lodash';")))
    (by decide) (.inl rfl)

/-- Claim C10: a `.d.ts` file while `includeDeclarationFiles` is false,
or a file matching no supported extension, makes the alias rule a no-op:
no diagnostics for any imports, whatever the file system, configuration
mappings and events — `create` returns the empty visitor object before
reading any configuration. -/
theorem c10_skipped_files (fs : Fs) (raw : RawOptions) (cwd filename : String)
    (autoPathMappings : PathMap) (events : List AliasEvent)
    (h : (jsEndsWith filename (".d.ts") = true ∧
            raw.includeDeclarationFiles.getD false = false)
      ∨ (raw.supportedExtensions.getD defaultExtensions).any
          (fun ext => jsEndsWith filename ext) = false) :
    runAliasRule fs raw cwd filename autoPathMappings events = [] := by
  rcases h with ⟨h1, h2⟩ | h1
  · simp [runAliasRule, h1, h2]
  · simp [runAliasRule, h1]

/-- Witness for C10 on a declaration file with default options. -/
theorem c10_skipped_files_witness :
    runAliasRule [] ⟨none, none, none, none, none, none, none, none⟩
      "/p" "/p/src/types.d.ts" []
      [.importDecl { value := "../utils/helpers", raw := "'../utils/helpers'" }] = [] :=
  c10_skipped_files [] ⟨none, none, none, none, none, none, none, none⟩
    "/p" "/p/src/types.d.ts" []
    [.importDecl { value := "../utils/helpers", raw := "'../utils/helpers'" }]
    (by exact .inl ⟨by decide, rfl⟩)

/-- Counterexample to claim C7: with parent paths `{"@/*": ["./src/*"]}`
and a referenced project declaring `{"@/*": ["./lib/*"]}`, the merged
mapping carries the referenced project's entry — the parent-declared
entry IS overridden (`Object.assign` lets the later writer win). -/
theorem c7_counterexample :
    resolveProjectReferences
      [ ("/p/tsconfig.json", .jsonFile (some
          { compilerOptions := some { baseUrl := none, paths := some [("@/*", ["./src/*"])] },
            references := some [{ path := "./pkg" }] })),
        ("/p/pkg", .dir ["tsconfig.json"]),
        ("/p/pkg/tsconfig.json", .jsonFile (some
          { compilerOptions := some { baseUrl := none, paths := some [("@/*", ["./lib/*"])] },
            references := none })) ]
      "/p/tsconfig.json"
      = [("@/*", ["./lib/*"])] := by
  rfl

theorem mapLookup_setKey_self (d : PathMap) (k : String) (v : List String) :
    mapLookup (setKey d k v) k = some v := by
  induction d with
  | nil => simp [setKey, mapLookup, List.find?]
  | cons e rest ih =>
    by_cases he : (e.1 == k) = true
    · simp [setKey, he, mapLookup, List.find?]
    · simp only [setKey, he, Bool.false_eq_true, if_false]
      simp only [mapLookup, List.find?, he] at ih ⊢
      exact ih

theorem mapLookup_setKey_ne (d : PathMap) (k k' : String) (v : List String)
    (h : (k == k') = false) :
    mapLookup (setKey d k v) k' = mapLookup d k' := by
  induction d with
  | nil => simp [setKey, mapLookup, List.find?, h]
  | cons e rest ih =>
    by_cases he : (e.1 == k) = true
    · have he1 : e.1 = k := by simpa using he
      simp [setKey, he, mapLookup, List.find?, he1, h]
    · simp only [setKey, he, Bool.false_eq_true, if_false]
      by_cases he2 : (e.1 == k') = true
      · simp [mapLookup, List.find?, he2]
      · simp only [mapLookup, List.find?, he2, Bool.false_eq_true, if_false] at ih ⊢
        exact ih

theorem mapLookup_objAssign_no_key (k : String) :
    ∀ src : PathMap, (∀ e ∈ src, (e.1 == k) = false) →
      ∀ dst, mapLookup (objAssign dst src) k = mapLookup dst k := by
  intro src
  induction src with
  | nil => intro _ dst; rfl
  | cons e rest ih =>
    intro h dst
    rw [objAssign, List.foldl_cons]
    have := ih (fun e' he' => h e' (List.mem_cons_of_mem _ he')) (setKey dst e.1 e.2)
    rw [objAssign] at this
    rw [this]
    exact mapLookup_setKey_ne dst e.1 k e.2 (h e (List.mem_cons_self _ _))

theorem mapLookup_objAssign_right (k : String) (v : List String) :
    ∀ src : PathMap, (src.map Prod.fst).Nodup → mapLookup src k = some v →
      ∀ dst, mapLookup (objAssign dst src) k = some v := by
  intro src
  induction src with
  | nil =>
    intro _ h
    simp [mapLookup, List.find?] at h
  | cons e rest ih =>
    intro hnd h dst
    rw [objAssign, List.foldl_cons]
    have hnd' := hnd
    rw [List.map_cons, List.nodup_cons] at hnd'
    by_cases he : (e.1 == k) = true
    · have hv : some e.2 = some v := by
        simpa [mapLookup, List.find?, he] using h
      have hrest : ∀ e' ∈ rest, (e'.1 == k) = false := by
        intro e' he'
        have hne : e'.1 ≠ e.1 := by
          intro hcontra
          exact hnd'.1 (hcontra ▸ List.mem_map_of_mem Prod.fst he')
        have hek : e.1 = k := by simpa using he
        simp [hek ▸ hne]
      have hno := mapLookup_objAssign_no_key k rest hrest (setKey dst e.1 e.2)
      rw [objAssign] at hno
      rw [hno]
      have hek : e.1 = k := by simpa using he
      rw [hek]
      rw [mapLookup_setKey_self]
      exact hv
    · have h' : mapLookup rest k = some v := by
        simpa [mapLookup, List.find?, he] using h
      exact ih hnd'.2 h' (setKey dst e.1 e.2)

theorem fsExists_of_readJson (fs : Fs) (p : String) (c : Tsconfig)
    (h : fsReadJson fs p = some c) : fsExists fs p = true := by
  unfold fsReadJson at h
  unfold fsExists
  cases hl : fsLookup fs p with
  | none => rw [hl] at h; cases h
  | some e => simp [hl]

/-- Claim C7, amended: with project references, mappings merge with
`Object.assign` semantics — the parent's `paths` are written first and
each referenced config's `paths` after them, so on a key conflict the
referenced (later-written) entry overrides the parent's, and any key
the referenced config maps is looked up at the referenced config's
value in the merged result; a read or parse failure of a referenced
config is swallowed, leaving the mappings collected so far (here: the
parent's) intact. -/
theorem c7_reference_merge (fs : Fs) (tsconfigPath : String)
    (tsconfig : Tsconfig) (P : PathMap) (r : TsRef)
    (hread : fsReadJson fs tsconfigPath = some tsconfig)
    (hrefs : tsconfig.references = some [r])
    (hP : tsconfigPaths tsconfig = some P) :
    (∀ refTsconfig Q,
      fsReadJson fs (refConfigPath fs (dirname tsconfigPath) r.path) = some refTsconfig →
      tsconfigPaths refTsconfig = some Q →
      (resolveProjectReferences fs tsconfigPath = objAssign (objAssign [] P) Q
        ∧ ∀ k v, (Q.map Prod.fst).Nodup → mapLookup Q k = some v →
            mapLookup (resolveProjectReferences fs tsconfigPath) k = some v))
    ∧ (fsReadJson fs (refConfigPath fs (dirname tsconfigPath) r.path) = none →
      resolveProjectReferences fs tsconfigPath = objAssign [] P) := by
  have hbase : resolveProjectReferences fs tsconfigPath =
      refContribution fs (dirname tsconfigPath) (objAssign [] P) r := by
    unfold resolveProjectReferences
    rw [hread]
    simp only [hrefs, hP, List.foldl_cons, List.foldl_nil]
  constructor
  · intro refTsconfig Q hr hq
    have hex := fsExists_of_readJson fs _ refTsconfig hr
    have hcontrib : refContribution fs (dirname tsconfigPath) (objAssign [] P) r =
        objAssign (objAssign [] P) Q := by
      unfold refContribution
      simp only [hex, if_true, hr, hq]
    constructor
    · rw [hbase, hcontrib]
    · intro k v hnd hlq
      rw [hbase, hcontrib]
      exact mapLookup_objAssign_right k v Q hnd hlq _
  · intro hnone
    rw [hbase]
    unfold refContribution
    simp [hnone]

/-- Witness for the amended C7 at the concrete referenced project of the
counterexample: the merged mapping is the parent's entries overwritten
by the referenced project's. -/
theorem c7_reference_merge_witness :
    resolveProjectReferences
      [ ("/q/tsconfig.json", .jsonFile (some
          { compilerOptions := some { baseUrl := none, paths := some [("@/*", ["./src/*"])] },
            references := some [{ path := "./pkg" }] })),
        ("/q/pkg", .dir ["tsconfig.json"]),
        ("/q/pkg/tsconfig.json", .jsonFile (some
          { compilerOptions := some { baseUrl := none, paths := some [("@/*", ["./lib/*"])] },
            references := none })) ]
      "/q/tsconfig.json"
      = objAssign (objAssign [] [("@/*", ["./src/*"])]) [("@/*", ["./lib/*"])] :=
  ((c7_reference_merge
      [ ("/q/tsconfig.json", .jsonFile (some
          { compilerOptions := some { baseUrl := none, paths := some [("@/*", ["./src/*"])] },
            references := some [{ path := "./pkg" }] })),
        ("/q/pkg", .dir ["tsconfig.json"]),
        ("/q/pkg/tsconfig.json", .jsonFile (some
          { compilerOptions := some { baseUrl := none, paths := some [("@/*", ["./lib/*"])] },
            references := none })) ]
      "/q/tsconfig.json"
      { compilerOptions := some { baseUrl := none, paths := some [("@/*", ["./src/*"])] },
        references := some [{ path := "./pkg" }] }
      [("@/*", ["./src/*"])] { path := "./pkg" } rfl rfl rfl).1
    { compilerOptions := some { baseUrl := none, paths := some [("@/*", ["./lib/*"])] },
      references := none }
    [("@/*", ["./lib/*"])] (by rfl) rfl).1

/-- Counterexample to claim C3: the fix does not preserve the literal's
quote characters — a double-quoted import path is rewritten to a
single-quoted one (`fixer.replaceText(node.source, `'…'`)` always wraps
the alias in single quotes, replacing the whole literal). -/
theorem c3_counterexample :
    runAliasRule [] ⟨some "all", none, some [("@/*", ["./*"])], some "./src", none, none, none, none⟩
      "/p" "/p/src/components/Button.tsx" []
      [.importDecl { value := "../utils/helpers", raw := "\"../utils/helpers\"" }]
      = [ { anchor := 0
            message := "Use path alias '@/utils/helpers' instead of relative import '../utils/helpers'"
            fixReplacement := "'@/utils/helpers'" } ]
    ∧ jsStartsWith "\"../utils/helpers\"" "\"" = true
    ∧ jsStartsWith "'@/utils/helpers'" "\"" = false := by
  exact ⟨rfl, rfl, rfl⟩

/-- Claim C3, amended: whenever the alias rule flags an import or
require path, the attached fix replaces the entire import-path string
literal (its original quote characters included) with the computed
alias `<alias>/<relative-remainder>` — path separators normalized to
forward slashes — wrapped in single quotes, regardless of the original
quote style. -/
theorem c3_fix_single_quoted (mode : String) (excl : List String)
    (cwd base filename importPath kindWord : String) (patterns : List AliasPattern)
    (idx : Nat) (pat : AliasPattern)
    (hS : shouldUseAlias mode excl cwd base importPath filename = true)
    (hf : patterns.find? (fun p =>
      jsStartsWith (pathResolve (dirname filename) importPath) p.targetPath) = some pat) :
    aliasImportCheck mode excl cwd base filename patterns idx importPath kindWord =
      [ { anchor := idx
          message := ("Use path alias '") ++
            replaceAllChar
              (pat.aliasName ++ ("/") ++
                relativePath pat.targetPath (pathResolve (dirname filename) importPath))
              '\\' '/' ++
            ("' instead of relative ") ++ kindWord ++ (" '") ++ importPath ++ ("'")
          fixReplacement := ("'") ++
            replaceAllChar
              (pat.aliasName ++ ("/") ++
                relativePath pat.targetPath (pathResolve (dirname filename) importPath))
              '\\' '/' ++ ("'") } ] := by
  simp [aliasImportCheck, hS, findMatchingAlias, hf]

/-- Witness for the amended C3 at a concrete flagged import. -/
theorem c3_fix_single_quoted_witness :
    aliasImportCheck "all" [] "/p" "./src" "/p/src/components/Button.tsx"
      [{ aliasName := "@", targetPath := "/p/src" }] 0 "../utils/helpers" "import"
      = [ { anchor := 0
            message := ("Use path alias '") ++
              replaceAllChar
                ("@" ++ ("/") ++
                  relativePath "/p/src" (pathResolve (dirname "/p/src/components/Button.tsx") "../utils/helpers"))
                '\\' '/' ++
              ("' instead of relative ") ++ "import" ++ (" '") ++ "../utils/helpers" ++ ("'")
            fixReplacement := ("'") ++
              replaceAllChar
                ("@" ++ ("/") ++
                  relativePath "/p/src" (pathResolve (dirname "/p/src/components/Button.tsx") "../utils/helpers"))
                '\\' '/' ++ ("'") } ] :=
  c3_fix_single_quoted "all" [] "/p" "./src" "/p/src/components/Button.tsx"
    "../utils/helpers" "import" [{ aliasName := "@", targetPath := "/p/src" }] 0
    { aliasName := "@", targetPath := "/p/src" } (by rfl) (by rfl)

/-- Claim C6 (code evaluation): with the documented configuration —
mapping `{"@/*": ["./src/*"]}` and base `./src` — the import
`../utils/helpers` from `src/components/Button.tsx` is NOT flagged (the
pattern target resolves against the base directory to `<cwd>/src/src`,
which never matches), contradicting the claimed flag-and-fix; the
direct-children mode logic itself behaves as claimed: with the
base-relative mapping `{"@/*": ["./*"]}` the same import is flagged and
fixed to `'@/utils/helpers'` while an import resolving two levels below
the base is not flagged. -/
theorem c6_direct_children_eval :
    runAliasRule [] ⟨some "direct-children", none, some [("@/*", ["./src/*"])], some "./src", none, none, none, none⟩
      "/p" "/p/src/components/Button.tsx" []
      [.importDecl { value := "../utils/helpers", raw := "'../utils/helpers'" }] = []
    ∧ runAliasRule [] ⟨some "direct-children", none, some [("@/*", ["./*"])], some "./src", none, none, none, none⟩
      "/p" "/p/src/components/Button.tsx" []
      [ .importDecl { value := "../utils/helpers", raw := "'../utils/helpers'" },
        .importDecl { value := "../utils/deep/helpers", raw := "'../utils/deep/helpers'" } ]
      = [ { anchor := 0
            message := "Use path alias '@/utils/helpers' instead of relative import '../utils/helpers'"
            fixReplacement := "'@/utils/helpers'" } ] := by
  exact ⟨rfl, rfl⟩
